import Mathlib

/-!
Shallow embedding of `src/main.ts` of the `actions-download-artifact`
repository (a GitHub Action that lists, filters, selects, downloads and
extracts build artifacts), together with theorems settling the frozen
claims about its specification.

The embedding follows the TypeScript source closely:

* `getLatest` (main.ts lines 15-21) is a JavaScript `Array.prototype.reduce`
  with no initial value; a missing `updated_at` becomes `new Date('')`,
  an *Invalid Date* whose every `<`/`>` comparison is false.
* `groupAndGetLatestArtifacts` (lines 26-36) groups by name into a plain
  JavaScript object and takes `Object.values`; ECMAScript enumerates
  array-index-like keys first in ascending numeric order, then the
  remaining string keys in insertion order.
* the pagination filter (lines 94-99), the two selector passes
  (lines 101-112), the output reporting and the per-artifact
  download/extract loop (lines 116-152) and the `repo` input parsing
  (lines 65-69) are modelled as pure functions, with the externally
  visible calls recorded in an event trace.
-/

namespace DownloadArtifact

/-- An artifact record as consumed by `main.ts` (octokit schema
`artifact`).  `updated_at` models the *parsed* timestamp: `some t` when the
field is a string that parses to a valid date of numeric value `t`, and
`none` when the field is absent (the code turns an absent field into
`new Date('')`, an Invalid Date) or unparsable.  `name` is `none` when the
field is absent; the code treats an absent name and `""` alike (both are
falsy). -/
structure Artifact where
  id : Nat
  name : Option String
  size_in_bytes : Option Nat
  updated_at : Option Int
  expired : Bool
  deriving DecidableEq

/-- JavaScript `curDate > prevDate` on two `Date` values: an Invalid Date
(absent or unparsable `updated_at`) has value `NaN`, and every comparison
involving `NaN` is false. -/
def jsDateGt (cur prev : Option Int) : Bool :=
  match cur, prev with
  | some c, some p => decide (p < c)
  | _, _ => false

/-- One call of the `reduce` callback of `getLatest` (main.ts line 19),
at callback index `idx`: `curDate > prevDate && index ? cur : prev`.
(`index` is truthy exactly when it is nonzero.) -/
def reduceStep (idx : Nat) (prev cur : Artifact) : Artifact :=
  if jsDateGt cur.updated_at prev.updated_at ∧ idx ≠ 0 then cur else prev

/-- The `reduce` loop of `getLatest`: accumulator, remaining elements,
current callback index.  `Array.prototype.reduce` without an initial value
starts with the accumulator `arr[0]` and index `1`. -/
def reduceLatest : Artifact → List Artifact → Nat → Artifact
  | prev, [], _ => prev
  | prev, c :: t, idx => reduceLatest (reduceStep idx prev c) t (idx + 1)

/-- `getLatest` (main.ts lines 15-21).  On the empty list JavaScript
`reduce` with no initial value throws, modelled as `none`. -/
def getLatest : List Artifact → Option Artifact
  | [] => none
  | a :: l => some (reduceLatest a l 1)

/-- The `reduce` callback with the always-true `&& index` conjunct
dropped; `reduceLatest` is proved equal to a left fold of this step. -/
def jsStep (prev cur : Artifact) : Artifact :=
  if jsDateGt cur.updated_at prev.updated_at then cur else prev

/-- `getLatest` applied to the non-empty list `h :: t`, as it is applied
to each (always non-empty) name group in `groupAndGetLatestArtifacts`. -/
def groupLatest (h : Artifact) (t : List Artifact) : Artifact :=
  reduceLatest h t 1

/-- The grouping key of an artifact: JavaScript `artifact.name` is used as
an object key; an absent name and `""` hit the falsy guard alike, so both
are represented by the key `""` (which is skipped). -/
def nameKey (a : Artifact) : String :=
  a.name.getD ""

/-- One name group of the `grouped` object of
`groupAndGetLatestArtifacts`: its key, the first artifact pushed, and the
rest in push order.  A group is non-empty by construction. -/
abbrev Group := String × Artifact × List Artifact

/-- `grouped[artifact.name].push(artifact)`, creating the key if absent
(main.ts lines 30-33): a new string key is appended after the existing
ones, an existing key has the artifact appended to its group. -/
def addToGroups : List Group → String → Artifact → List Group
  | [], k, a => [(k, a, [])]
  | (k', h, t) :: rest, k, a =>
    if k' = k then (k', h, t ++ [a]) :: rest
    else (k', h, t) :: addToGroups rest k a

/-- One iteration of the grouping loop (lines 28-34): an artifact with a
falsy name (`!artifact.name`) is skipped, any other artifact is pushed
onto the group of its name. -/
def buildStep (g : List Group) (a : Artifact) : List Group :=
  if nameKey a = "" then g else addToGroups g (nameKey a) a

/-- The grouping loop of `groupAndGetLatestArtifacts` (lines 28-34). -/
def buildGroups (l : List Artifact) : List Group :=
  l.foldl buildStep []

/-- Decimal value of a digit string. -/
def digitsVal (cs : List Char) : Nat :=
  cs.foldl (fun n c => n * 10 + (c.toNat - 48)) 0

/-- ECMAScript array-index property key: a canonical decimal numeral
(digits only, no leading zero unless the key is `"0"`) whose value is
below `2 ^ 32 - 1`.  `Object.values` enumerates these keys first, in
ascending numeric order, before the remaining string keys. -/
def isArrayIndexKey (s : String) : Bool :=
  match s.data with
  | [] => false
  | c :: rest =>
    (c :: rest).all Char.isDigit && (c ≠ '0' || rest.isEmpty) &&
      digitsVal (c :: rest) < 4294967295

/-- Numeric value used to order array-index keys. -/
def keyNum (s : String) : Nat :=
  digitsVal s.data

/-- Ordering of groups by the numeric value of their (array-index) key. -/
def groupIdxLe (p q : Group) : Prop :=
  keyNum p.1 ≤ keyNum q.1

instance : DecidableRel groupIdxLe :=
  fun p q => inferInstanceAs (Decidable (keyNum p.1 ≤ keyNum q.1))

instance : IsTotal Group groupIdxLe :=
  ⟨fun p q => Nat.le_total (keyNum p.1) (keyNum q.1)⟩

instance : IsTrans Group groupIdxLe :=
  ⟨fun _ _ _ => Nat.le_trans⟩

/-- `Object.values(grouped)` (line 35): ECMAScript own-property order —
array-index keys in ascending numeric order first, then the remaining
string keys in insertion order. -/
def jsObjectValues (g : List Group) : List Group :=
  List.insertionSort groupIdxLe (g.filter (fun p => isArrayIndexKey p.1))
    ++ g.filter (fun p => !isArrayIndexKey p.1)

/-- `groupAndGetLatestArtifacts` (main.ts lines 26-36). -/
def groupAndGetLatestArtifacts (l : List Artifact) : List Artifact :=
  (jsObjectValues (buildGroups l)).map (fun p => groupLatest p.2.1 p.2.2)

/-- Pass A of the selector (lines 101-108): if the `latest` flag is set
and the working set is non-empty, replace it with the single artifact
chosen by `getLatest` (an object is always truthy, so the inner
`if (latestArtifact)` always takes the replacement branch). -/
def selectorPassA (latest : Bool) : List Artifact → List Artifact
  | [] => []
  | a :: t => if latest then [groupLatest a t] else a :: t

/-- The selector (lines 101-112): pass A, then — when the working set is
still non-empty — the per-name pass `groupAndGetLatestArtifacts`. -/
def selector (latest : Bool) (l : List Artifact) : List Artifact :=
  if (selectorPassA latest l).isEmpty then selectorPassA latest l
  else groupAndGetLatestArtifacts (selectorPassA latest l)

/-- The per-page filter chain of the pagination loop (lines 95-98):
`.filter(a => !a.expired).filter(a => artifactName ? a.name === artifactName : true)`.
JavaScript `===` between an absent name and a string is false. -/
def filterPage (artifactName : String) (page : List Artifact) : List Artifact :=
  (page.filter (fun a => !a.expired)).filter
    (fun a => if artifactName = "" then true else a.name == some artifactName)

/-- The accumulation loop over pages (lines 92-99):
`artifacts = artifacts.concat(page.filter(...).filter(...))`. -/
def collectArtifacts (artifactName : String) (pages : List (List Artifact)) : List Artifact :=
  pages.foldl (fun acc page => acc ++ filterPage artifactName page) []

/-- Error carried by a rejected archive fetch. -/
structure FetchError where
  status : Nat
  deriving DecidableEq

/-- `get` (main.ts lines 38-51), reduced to its status handling: the
promise rejects exactly when `res.statusCode && res.statusCode >= 400`
(a missing status is modelled as `0`); otherwise the body resolves. -/
def httpGet (statusCode : Nat) : Except FetchError Unit :=
  if statusCode ≠ 0 ∧ 400 ≤ statusCode then .error ⟨statusCode⟩ else .ok ()

deriving instance DecidableEq for Except

/-- Externally visible calls of the run, in order: the two named outputs,
the download-URL resolution, the archive fetch, the extraction of one
artifact, and the artifact-listing request. -/
inductive RunEvent where
  | outFound (b : Bool)
  | outPath (p : String)
  | resolveUrl (id : Nat)
  | downloadZip (id : Nat)
  | extractZip (id : Nat)
  | listArtifacts
  deriving DecidableEq

/-- True for the two named-output events. -/
def isOutputEvent : RunEvent → Bool
  | .outFound _ => true
  | .outPath _ => true
  | _ => false

/-- True for the per-artifact processing events (URL resolution, archive
download, extraction). -/
def isProcessingEvent : RunEvent → Bool
  | .resolveUrl _ => true
  | .downloadZip _ => true
  | .extractZip _ => true
  | _ => false

/-- The per-artifact loop (main.ts lines 121-147): resolve a download
URL, fetch the archive (`get`), then extract.  `status` gives the HTTP
status the fetch of a given artifact id sees.  A rejected fetch
propagates out of the loop: the remaining artifacts are not touched. -/
def processLoop (status : Nat → Nat) : List Artifact → List RunEvent × Except FetchError Unit
  | [] => ([], .ok ())
  | a :: rest =>
    match httpGet (status a.id) with
    | .error e => ([.resolveUrl a.id, .downloadZip a.id], .error e)
    | .ok _ =>
      (.resolveUrl a.id :: .downloadZip a.id :: .extractZip a.id ::
          (processLoop status rest).1,
        (processLoop status rest).2)

/-- Lines 101-152 of `main.ts`, after the filtered listing is in hand:
run the selector; if the selection is empty report
`found-artifact = false` and `path = ""`; otherwise report
`found-artifact = true` and the resolved path, then run the
per-artifact loop.  `resolvedPath` stands for `pathname.resolve(path)`. -/
def runPost (latest : Bool) (resolvedPath : String) (status : Nat → Nat)
    (filtered : List Artifact) : List RunEvent × Except FetchError Unit :=
  if (selector latest filtered).isEmpty then ([.outFound false, .outPath ""], .ok ())
  else
    (.outFound true :: .outPath resolvedPath ::
        (processLoop status (selector latest filtered)).1,
      (processLoop status (selector latest filtered)).2)

/-- JavaScript `String.prototype.split('/')`, character by character:
every occurrence of `'/'` separates segments, so `"a/b/c"` becomes
`["a", "b", "c"]` and `""` becomes `[""]`. -/
def splitSlashAux : List Char → List Char → List (List Char)
  | [], acc => [acc.reverse]
  | c :: rest, acc =>
    if c = '/' then acc.reverse :: splitSlashAux rest []
    else splitSlashAux rest (c :: acc)

/-- `repoInput.split("/")` (main.ts line 66). -/
def jsSplitSlash (s : String) : List String :=
  (splitSlashAux s.data []).map (fun cs => ⟨cs⟩)

/-- Lines 65-69: `const [owner, repo] = repoInput.split("/")` followed by
`if (!owner || !repo) throw ...`.  A missing destructured element is
`undefined`, falsy like `""`; a throw is modelled as `none`. -/
def parseRepo (repoInput : String) : Option (String × String) :=
  if (jsSplitSlash repoInput).getD 0 "" = "" ∨ (jsSplitSlash repoInput).getD 1 "" = ""
  then none
  else some ((jsSplitSlash repoInput).getD 0 "", (jsSplitSlash repoInput).getD 1 "")

/-- Failure modes of the whole run. -/
inductive RunError where
  | config
  | fetch (e : FetchError)
  deriving DecidableEq

/-- The whole `downloadArtifact` body: parse the `repo` input — an
invalid value throws before the Octokit client is even built, so the
trace is empty — then list (one network event), filter, and hand over to
`runPost`. -/
def runTop (repoInput resolvedPath artifactName : String) (latest : Bool)
    (status : Nat → Nat) (pages : List (List Artifact)) :
    List RunEvent × Except RunError Unit :=
  match parseRepo repoInput with
  | none => ([], .error .config)
  | some _ =>
    (.listArtifacts ::
        (runPost latest resolvedPath status (collectArtifacts artifactName pages)).1,
      (runPost latest resolvedPath status (collectArtifacts artifactName pages)).2.mapError .fetch)

/-- Append a key to a key list unless already present: how the grouping
object acquires keys, in first-seen order. -/
def insertKey (ks : List String) (k : String) : List String :=
  if k ∈ ks then ks else ks ++ [k]

/-- The distinct elements of a list of names, in first-seen order. -/
def firstSeen (names : List String) : List String :=
  names.foldl insertKey []

/-- The non-falsy grouping keys of an artifact list, in list order with
multiplicity. -/
def namedKeys (l : List Artifact) : List String :=
  l.filterMap (fun a => if nameKey a = "" then none else some (nameKey a))

/-- The keys of a group list. -/
def keysOf (g : List Group) : List String :=
  g.map (fun p => p.1)

/-- The two chained page filters, combined into one predicate (so that the
filter stage can be compared with a single filter of the flattened
listing). -/
def keepPred (artifactName : String) (a : Artifact) : Bool :=
  (if artifactName = "" then true else a.name == some artifactName) && !a.expired

/-- Well-formedness of the grouping object: every group has a non-empty
key and all of its members carry that key as their name. -/
def GroupsWF (g : List Group) : Prop :=
  ∀ p ∈ g, p.1 ≠ "" ∧ p.2.1.name = some p.1 ∧ ∀ x ∈ p.2.2, x.name = some p.1

/-- True when no named-output event of the trace is followed (anywhere
later) by a per-artifact processing event: the reading of the spec
sentence that the outputs are reported only after all processing. -/
def noProcessingAfterOutput : List RunEvent → Bool
  | [] => true
  | e :: t =>
    if isOutputEvent e then t.all (fun x => !isProcessingEvent x) && noProcessingAfterOutput t
    else noProcessingAfterOutput t

/-- Concrete artifacts used by the witnesses and counterexamples. -/
def exampleA : Artifact := ⟨1, some "A", none, some 1, false⟩

def exampleB : Artifact := ⟨2, some "B", none, some 2, false⟩

def exampleC : Artifact := ⟨3, some "C", none, some 2, false⟩

/-- An artifact whose `updated_at` is absent. -/
def exampleM : Artifact := ⟨9, some "m", none, none, false⟩

/-- An artifact whose `updated_at` is present. -/
def exampleP : Artifact := ⟨10, some "p", none, some 5, false⟩

/-- An artifact whose name is the empty string (falsy, like an absent
name). -/
def exampleNoName : Artifact := ⟨11, some "", none, some 3, false⟩

/-- An artifact whose name is not an array-index key. -/
def exampleNameB : Artifact := ⟨12, some "b", none, some 1, false⟩

/-- An artifact whose name `"1"` is an array-index key. -/
def exampleName1 : Artifact := ⟨13, some "1", none, some 1, false⟩

/-! ### Basic facts about the latest-comparison fold -/

lemma jsDateGt_none_right (x : Option Int) : jsDateGt x none = false := by
  cases x <;> rfl

lemma jsDateGt_none_left (x : Option Int) : jsDateGt none x = false := by
  cases x <;> rfl

lemma jsDateGt_some_some (c p : Int) : jsDateGt (some c) (some p) = decide (p < c) := rfl

/-- Once the callback index is nonzero (it always is in a `reduce` with no
initial value), the `&& index` conjunct is vacuous and the loop is a left
fold of `jsStep`. -/
lemma reduceLatest_eq_foldl :
    ∀ (l : List Artifact) (prev : Artifact) (idx : Nat), idx ≠ 0 →
      reduceLatest prev l idx = l.foldl jsStep prev
  | [], _, _, _ => rfl
  | c :: t, prev, idx, h => by
    simp only [reduceLatest, List.foldl_cons]
    rw [show reduceStep idx prev c = jsStep prev c by simp [reduceStep, jsStep, h]]
    exact reduceLatest_eq_foldl t (jsStep prev c) (idx + 1) (Nat.succ_ne_zero idx)

lemma groupLatest_eq_foldl (h : Artifact) (t : List Artifact) :
    groupLatest h t = t.foldl jsStep h :=
  reduceLatest_eq_foldl t h 1 one_ne_zero

lemma jsStep_or (p c : Artifact) : jsStep p c = p ∨ jsStep p c = c := by
  unfold jsStep; split
  · exact Or.inr rfl
  · exact Or.inl rfl

lemma foldl_jsStep_mem : ∀ (l : List Artifact) (a : Artifact), l.foldl jsStep a ∈ a :: l
  | [], a => by simp
  | c :: t, a => by
    simp only [List.foldl_cons]
    rcases jsStep_or a c with h' | h' <;> rw [h']
    · have h := foldl_jsStep_mem t a
      simp only [List.mem_cons] at h ⊢
      tauto
    · have h := foldl_jsStep_mem t c
      simp only [List.mem_cons] at h ⊢
      tauto

lemma groupLatest_mem (h : Artifact) (t : List Artifact) : groupLatest h t ∈ h :: t := by
  rw [groupLatest_eq_foldl]; exact foldl_jsStep_mem t h

/-- An accumulator with a missing (hence Invalid-Date) timestamp is never
displaced: every comparison against `NaN` is false. -/
lemma foldl_jsStep_none {a : Artifact} (h : a.updated_at = none) :
    ∀ l : List Artifact, l.foldl jsStep a = a
  | [] => rfl
  | c :: t => by
    have hs : jsStep a c = a := by
      unfold jsStep; rw [h, jsDateGt_none_right]; simp
    rw [List.foldl_cons, hs]
    exact foldl_jsStep_none h t

lemma jsDateGt_left_some {c p : Option Int} (h : jsDateGt c p = true) : c ≠ none := by
  intro hc
  rw [hc, jsDateGt_none_left] at h
  exact Bool.false_ne_true h

/-- An accumulator with a present timestamp is only ever displaced by an
artifact with a present timestamp. -/
lemma foldl_jsStep_some {a : Artifact} (h : a.updated_at ≠ none) :
    ∀ l : List Artifact, (l.foldl jsStep a).updated_at ≠ none
  | [] => h
  | c :: t => by
    rw [List.foldl_cons]
    by_cases hg : jsDateGt c.updated_at a.updated_at
    · have hs : jsStep a c = c := by unfold jsStep; rw [if_pos hg]
      rw [hs]
      exact foldl_jsStep_some (jsDateGt_left_some hg) t
    · have hs : jsStep a c = a := by unfold jsStep; rw [if_neg hg]
      rw [hs]
      exact foldl_jsStep_some h t

/-! ### Claim C1 -/

/-- C1: the latest-comparison rule over a non-empty artifact list is a
left-to-right fold; the current best is replaced by the next candidate
only when the candidate's timestamp is strictly greater than the current
best's; equal timestamps keep the earlier-encountered element; a list of
size 1 returns its sole element unconditionally; and on
`[A(t=1), B(t=2), C(t=2)]` the result is `B`. -/
theorem getLatest_fold_rule :
    (∀ (a : Artifact) (l : List Artifact), getLatest (a :: l) = some (l.foldl jsStep a)) ∧
    (∀ p c : Artifact, jsStep p c = p ∨ jsStep p c = c) ∧
    (∀ p c : Artifact, jsStep p c = c → c ≠ p →
      ∃ tp tc : Int, p.updated_at = some tp ∧ c.updated_at = some tc ∧ tp < tc) ∧
    (∀ (p c : Artifact) (tp tc : Int), p.updated_at = some tp → c.updated_at = some tc →
      jsStep p c = if tp < tc then c else p) ∧
    (∀ p c : Artifact, c.updated_at = p.updated_at → jsStep p c = p) ∧
    (∀ a : Artifact, getLatest [a] = some a) ∧
    getLatest [exampleA, exampleB, exampleC] = some exampleB := by
  refine ⟨?_, jsStep_or, ?_, ?_, ?_, fun a => rfl, by decide⟩
  · intro a l
    simp [getLatest, reduceLatest_eq_foldl l a 1 one_ne_zero]
  · intro p c hstep hne
    by_cases hg : jsDateGt c.updated_at p.updated_at
    · cases hc : c.updated_at with
      | none => rw [hc, jsDateGt_none_left] at hg; exact absurd hg (by simp)
      | some tc =>
        cases hp : p.updated_at with
        | none => rw [hc, hp, jsDateGt_none_right] at hg; exact absurd hg (by simp)
        | some tp =>
          rw [hc, hp, jsDateGt_some_some] at hg
          exact ⟨tp, tc, rfl, rfl, of_decide_eq_true hg⟩
    · unfold jsStep at hstep
      rw [if_neg hg] at hstep
      exact absurd hstep.symm hne
  · intro p c tp tc hp hc
    unfold jsStep
    rw [hp, hc, jsDateGt_some_some]
    by_cases h : tp < tc
    · rw [if_pos (by simpa using h), if_pos h]
    · rw [if_neg (by simpa using h), if_neg h]
  · intro p c h
    unfold jsStep
    rw [h]
    cases p.updated_at with
    | none => rw [jsDateGt_none_right]; simp
    | some t => rw [jsDateGt_some_some]; simp

/-- Witness for C1: the fold shape, the strict-greater replacement and the
equal-timestamp tie-break, each at a concrete input. -/
theorem getLatest_fold_rule_witness :
    getLatest [exampleA, exampleB] = some ([exampleB].foldl jsStep exampleA) ∧
    jsStep exampleA exampleB = (if (1 : Int) < 2 then exampleB else exampleA) ∧
    jsStep exampleB exampleC = exampleB :=
  ⟨getLatest_fold_rule.1 exampleA [exampleB],
    getLatest_fold_rule.2.2.2.1 exampleA exampleB 1 2 rfl rfl,
    getLatest_fold_rule.2.2.2.2.1 exampleB exampleC rfl⟩

/-! ### Claim C2 -/

/-- C2 counterexample: a missing-timestamp artifact placed first wins the
fold even against a later artifact with a present timestamp, because an
Invalid Date compares false both ways (it is not treated as the
epoch/minimum).  So the fold's result *can* be the missing-timestamp
artifact of a mixed list, refuting the claim as stated. -/
theorem missing_ts_can_win :
    getLatest [exampleM, exampleP] = some exampleM ∧
    exampleM.updated_at = none ∧ exampleP.updated_at = some 5 := by decide

/-- C2 amended: a missing-timestamp artifact never *displaces* the current
best — the fold's result is the missing-timestamp artifact only when it is
the first element (whose accumulator is never displaced); whenever the
first element's timestamp is present, the result's timestamp is present,
so no missing-timestamp artifact ever outranks it. -/
theorem missing_ts_never_displaces (a : Artifact) (l : List Artifact) :
    (a.updated_at = none → getLatest (a :: l) = some a) ∧
    (a.updated_at ≠ none → ∀ r, getLatest (a :: l) = some r → r.updated_at ≠ none) := by
  constructor
  · intro h
    simp [getLatest, reduceLatest_eq_foldl l a 1 one_ne_zero, foldl_jsStep_none h l]
  · intro h r hr
    simp only [getLatest, reduceLatest_eq_foldl l a 1 one_ne_zero, Option.some.injEq] at hr
    exact hr ▸ foldl_jsStep_some h l

/-- Witness for C2 (amended): at concrete inputs, a missing-timestamp head
is returned unchanged, and a present-timestamp head yields a result with a
present timestamp. -/
theorem missing_ts_never_displaces_witness :
    getLatest [exampleM, exampleP] = some exampleM ∧ exampleP.updated_at ≠ none :=
  ⟨(missing_ts_never_displaces exampleM [exampleP]).1 rfl,
    (missing_ts_never_displaces exampleP [exampleM]).2 (by decide) exampleP (by decide)⟩

/-! ### Claim C5 -/

lemma filterPage_eq (n : String) (page : List Artifact) :
    filterPage n page = page.filter (keepPred n) := by
  unfold filterPage keepPred
  rw [List.filter_filter]

lemma collect_foldl_eq (n : String) :
    ∀ (pages : List (List Artifact)) (acc : List Artifact),
      pages.foldl (fun acc page => acc ++ filterPage n page) acc =
        acc ++ pages.flatten.filter (keepPred n)
  | [], acc => by simp
  | p :: ps, acc => by
    rw [List.foldl_cons, collect_foldl_eq n ps (acc ++ filterPage n p), filterPage_eq]
    simp [List.filter_append, List.append_assoc]

lemma collectArtifacts_eq (n : String) (pages : List (List Artifact)) :
    collectArtifacts n pages = pages.flatten.filter (keepPred n) := by
  unfold collectArtifacts
  rw [collect_foldl_eq]
  simp

/-- C5: the filter stage is an order-preserving subset (a sublist) of the
flattened listing; it keeps no expired artifact, and when a name filter is
set it keeps only artifacts whose name equals the filter exactly. -/
theorem filter_stage_subset (artifactName : String) (pages : List (List Artifact)) :
    (collectArtifacts artifactName pages).Sublist pages.flatten ∧
    ∀ a ∈ collectArtifacts artifactName pages,
      a.expired = false ∧ (artifactName ≠ "" → a.name = some artifactName) := by
  have he : collectArtifacts artifactName pages =
      pages.flatten.filter (keepPred artifactName) := collectArtifacts_eq _ _
  refine ⟨he ▸ List.filter_sublist _, ?_⟩
  intro a ha
  rw [he, List.mem_filter] at ha
  have hp := ha.2
  unfold keepPred at hp
  rw [Bool.and_eq_true] at hp
  refine ⟨by simpa using hp.2, fun hn => ?_⟩
  have hname := hp.1
  rw [if_neg hn] at hname
  simpa using hname

/-- Witness for C5 at a concrete two-page listing with a name filter. -/
theorem filter_stage_subset_witness :
    (collectArtifacts "A" [[exampleA], [exampleB]]).Sublist [exampleA, exampleB] ∧
    exampleA.expired = false ∧ exampleA.name = some "A" := by
  obtain ⟨hs, hm⟩ := filter_stage_subset "A" [[exampleA], [exampleB]]
  have ha := hm exampleA (by decide)
  exact ⟨by simpa using hs, ha.1, ha.2 (by decide)⟩

/-! ### Claim C6 -/

/-- C6: when the selection set is empty after filtering and selection, the
run reports `found-artifact = false` and `path = ""`, and the trace holds
no URL-resolution, download or extraction event. -/
theorem empty_selection_outputs (latest : Bool) (resolvedPath : String)
    (status : Nat → Nat) (filtered : List Artifact)
    (h : selector latest filtered = []) :
    runPost latest resolvedPath status filtered =
      ([.outFound false, .outPath ""], .ok ()) := by
  unfold runPost
  rw [h]
  rfl

/-- Witness for C6: the empty filtered list. -/
theorem empty_selection_outputs_witness :
    runPost true "P" (fun _ => 200) [] = ([.outFound false, .outPath ""], .ok ()) :=
  empty_selection_outputs true "P" (fun _ => 200) [] rfl

/-! ### Claim C7 -/

/-- C7 counterexample: `"a/b/c"` is split on *every* slash and the repo
part is the second segment `"b"`, not everything after the first slash
(`"b/c"`), refuting the claim as stated. -/
theorem repo_split_takes_second_segment :
    parseRepo "a/b/c" = some ("a", "b") ∧
    (("a", "b") : String × String) ≠ ("a", "b/c") := by decide

/-- C7 amended: the repository input is split on every `/`; owner is the
first segment and repo the *second* segment (anything after a second
slash is dropped); when either of the first two segments is empty or
missing, the run fails with a configuration error and its trace is empty,
so no network access happens. -/
theorem repo_parse_segments (s resolvedPath artifactName : String) (latest : Bool)
    (status : Nat → Nat) (pages : List (List Artifact)) :
    (∀ owner repo, parseRepo s = some (owner, repo) →
      owner = (jsSplitSlash s).getD 0 "" ∧ repo = (jsSplitSlash s).getD 1 "" ∧
        owner ≠ "" ∧ repo ≠ "") ∧
    ((jsSplitSlash s).getD 0 "" = "" ∨ (jsSplitSlash s).getD 1 "" = "" →
      runTop s resolvedPath artifactName latest status pages = ([], .error .config)) := by
  constructor
  · intro owner repo h
    unfold parseRepo at h
    by_cases hc : (jsSplitSlash s).getD 0 "" = "" ∨ (jsSplitSlash s).getD 1 "" = ""
    · rw [if_pos hc] at h
      exact absurd h (by simp)
    · rw [if_neg hc] at h
      have hp := Option.some.inj h
      rw [Prod.mk.injEq] at hp
      push_neg at hc
      exact ⟨hp.1.symm, hp.2.symm, hp.1 ▸ hc.1, hp.2 ▸ hc.2⟩
  · intro h
    have hnone : parseRepo s = none := by unfold parseRepo; rw [if_pos h]
    unfold runTop
    rw [hnone]

/-- Witness for C7 (amended): `"o/r"` parses into its first two segments,
and a slash-free input fails with an empty trace. -/
theorem repo_parse_segments_witness :
    ("o" : String) = (jsSplitSlash "o/r").getD 0 "" ∧
    runTop "noslash" "R" "" false (fun _ => 200) [] = ([], .error .config) :=
  ⟨((repo_parse_segments "o/r" "R" "" false (fun _ => 200) []).1 "o" "r" (by decide)).1,
    (repo_parse_segments "noslash" "R" "" false (fun _ => 200) []).2 (Or.inr (by decide))⟩

/-! ### Claim C8 -/

/-- C8: an error status (`>= 400`) on an archive fetch is fatal for the
whole run: the loop stops at the first failing artifact with the fetch
error, the artifacts after it are neither resolved, downloaded nor
extracted, and the failing fetch is attempted exactly once (no retry). -/
theorem fetch_error_aborts_run (status : Nat → Nat) (pre post : List Artifact) (a : Artifact)
    (hpre : ∀ b ∈ pre, status b.id < 400) (ha : 400 ≤ status a.id) :
    processLoop status (pre ++ a :: post) =
      (pre.flatMap (fun b => [.resolveUrl b.id, .downloadZip b.id, .extractZip b.id])
          ++ [.resolveUrl a.id, .downloadZip a.id],
        .error ⟨status a.id⟩) := by
  induction pre with
  | nil =>
    have hg : httpGet (status a.id) = .error ⟨status a.id⟩ := by
      unfold httpGet
      rw [if_pos ⟨by omega, ha⟩]
    simp only [List.nil_append, processLoop, hg, List.flatMap_nil]
  | cons b t ih =>
    have hb : httpGet (status b.id) = .ok () := by
      unfold httpGet
      rw [if_neg]
      rintro ⟨-, h4⟩
      exact absurd h4 (Nat.not_le.mpr (hpre b (by simp)))
    have ht := ih (fun x hx => hpre x (by simp [hx]))
    simp only [List.cons_append, processLoop, hb, List.append_eq, ht, List.flatMap_cons,
      List.append_assoc, List.nil_append]

/-- Witness for C8: a three-artifact selection whose second fetch returns
404 — the first is fully processed, the second stops at the failed
download, the third is untouched. -/
theorem fetch_error_aborts_run_witness :
    processLoop (fun i => if i = 2 then 404 else 200) [exampleA, exampleB, exampleC] =
      ([.resolveUrl 1, .downloadZip 1, .extractZip 1, .resolveUrl 2, .downloadZip 2],
        .error ⟨404⟩) := by
  have h := fetch_error_aborts_run (fun i => if i = 2 then 404 else 200)
    [exampleA] [exampleC] exampleB (by decide) (by decide)
  simpa using h

/-! ### Claim C9 -/

/-- The per-artifact loop emits no named-output event. -/
lemma processLoop_no_output (status : Nat → Nat) :
    ∀ arts : List Artifact, ∀ e ∈ (processLoop status arts).1, isOutputEvent e = false
  | [] => by intro e he; simp [processLoop] at he
  | a :: rest => by
    intro e he
    simp only [processLoop] at he
    cases hg : httpGet (status a.id) with
    | error err =>
      rw [hg] at he
      simp only [List.mem_cons, List.not_mem_nil, or_false] at he
      rcases he with h | h <;> subst h <;> rfl
    | ok u =>
      rw [hg] at he
      simp only [List.mem_cons] at he
      rcases he with h | h | h | h
      · subst h; rfl
      · subst h; rfl
      · subst h; rfl
      · exact processLoop_no_output status rest e h

/-- C9 counterexample: on a run that selects one artifact, the two named
outputs are written *before* the per-artifact processing, so the trace has
processing events after an output event, refuting the claim that the
outputs are reported only after all selected artifacts are processed. -/
theorem outputs_not_after_processing :
    selector false [exampleA] ≠ [] ∧
    noProcessingAfterOutput ((runPost false "P" (fun _ => 200) [exampleA]).1) = false := by
  decide

/-- C9 amended: when at least one artifact is selected, the run reports
`found-artifact = true` and the resolved path *before* processing; the two
output events open the trace and everything after them is non-output
processing. -/
theorem outputs_reported_before_processing (latest : Bool) (resolvedPath : String)
    (status : Nat → Nat) (filtered : List Artifact)
    (h : selector latest filtered ≠ []) :
    ∃ tr, (runPost latest resolvedPath status filtered).1 =
        .outFound true :: .outPath resolvedPath :: tr ∧
      ∀ e ∈ tr, isOutputEvent e = false := by
  unfold runPost
  rw [if_neg (by simpa [List.isEmpty_iff] using h)]
  exact ⟨_, rfl, processLoop_no_output status _⟩

/-- Witness for C9 (amended) at a concrete one-artifact selection. -/
theorem outputs_reported_before_processing_witness :
    ∃ tr, (runPost false "P" (fun _ => 200) [exampleA]).1 =
        .outFound true :: .outPath "P" :: tr ∧
      ∀ e ∈ tr, isOutputEvent e = false :=
  outputs_reported_before_processing false "P" (fun _ => 200) [exampleA] (by decide)

/-! ### Facts about the grouping object -/

lemma keysOf_cons (p : Group) (g : List Group) : keysOf (p :: g) = p.1 :: keysOf g := rfl

lemma nameKey_eq_some {a : Artifact} (hk : nameKey a ≠ "") : a.name = some (nameKey a) := by
  unfold nameKey at hk ⊢
  cases h : a.name with
  | none => rw [h] at hk; exact absurd rfl hk
  | some s => rfl

lemma addToGroups_wf {k : String} {a : Artifact} (hk : k ≠ "") (ha : a.name = some k) :
    ∀ (g : List Group), GroupsWF g → GroupsWF (addToGroups g k a)
  | [], _ => by
    intro p hp
    simp only [addToGroups, List.mem_singleton] at hp
    subst hp
    exact ⟨hk, ha, by simp⟩
  | (k', h1, t1) :: rest, hg => by
    have hq := hg _ (List.mem_cons_self _ rest)
    have hrest : GroupsWF rest := fun p hp => hg p (List.mem_cons_of_mem _ hp)
    by_cases he : k' = k
    · intro p hp
      rw [show addToGroups ((k', h1, t1) :: rest) k a = (k', h1, t1 ++ [a]) :: rest by
            simp [addToGroups, he]] at hp
      rcases List.mem_cons.mp hp with h | h
      · subst h
        refine ⟨hq.1, hq.2.1, fun x hx => ?_⟩
        rcases List.mem_append.mp hx with hx | hx
        · exact hq.2.2 x hx
        · rw [List.mem_singleton.mp hx, he]
          exact ha
      · exact hrest p h
    · intro p hp
      rw [show addToGroups ((k', h1, t1) :: rest) k a = (k', h1, t1) :: addToGroups rest k a by
            simp [addToGroups, he]] at hp
      rcases List.mem_cons.mp hp with h | h
      · subst h; exact hq
      · exact addToGroups_wf hk ha rest hrest p h

lemma foldl_buildStep_wf : ∀ (l : List Artifact) (g : List Group),
    GroupsWF g → GroupsWF (l.foldl buildStep g)
  | [], _, hg => hg
  | a :: t, g, hg => by
    rw [List.foldl_cons]
    apply foldl_buildStep_wf t
    by_cases h : nameKey a = ""
    · rw [show buildStep g a = g by simp [buildStep, h]]
      exact hg
    · rw [show buildStep g a = addToGroups g (nameKey a) a by simp [buildStep, h]]
      exact addToGroups_wf h (nameKey_eq_some h) g hg

lemma buildGroups_wf (l : List Artifact) : GroupsWF (buildGroups l) :=
  foldl_buildStep_wf l [] (by intro p hp; simp at hp)

lemma keysOf_addToGroups : ∀ (g : List Group) (k : String) (a : Artifact),
    keysOf (addToGroups g k a) = insertKey (keysOf g) k
  | [], k, a => by simp [addToGroups, keysOf, insertKey]
  | (k', h1, t1) :: rest, k, a => by
    by_cases he : k' = k
    · rw [show addToGroups ((k', h1, t1) :: rest) k a = (k', h1, t1 ++ [a]) :: rest by
          simp [addToGroups, he]]
      rw [keysOf_cons, keysOf_cons, insertKey,
        if_pos (he ▸ List.mem_cons_self k' (keysOf rest))]
    · rw [show addToGroups ((k', h1, t1) :: rest) k a = (k', h1, t1) :: addToGroups rest k a by
          simp [addToGroups, he]]
      rw [keysOf_cons, keysOf_cons, keysOf_addToGroups rest k a]
      unfold insertKey
      by_cases hm : k ∈ keysOf rest
      · rw [if_pos hm, if_pos (List.mem_cons_of_mem _ hm)]
      · rw [if_neg hm,
          if_neg (fun hmem => by rcases List.mem_cons.mp hmem with h | h
                                 exacts [he h.symm, hm h])]
        rfl

lemma keysOf_foldl_buildStep : ∀ (l : List Artifact) (g : List Group),
    keysOf (l.foldl buildStep g) = (namedKeys l).foldl insertKey (keysOf g)
  | [], g => by simp [namedKeys]
  | a :: t, g => by
    rw [List.foldl_cons]
    by_cases h : nameKey a = ""
    · rw [show buildStep g a = g by simp [buildStep, h]]
      rw [keysOf_foldl_buildStep t g]
      rw [show namedKeys (a :: t) = namedKeys t by simp [namedKeys, List.filterMap_cons, h]]
    · rw [show buildStep g a = addToGroups g (nameKey a) a by simp [buildStep, h]]
      rw [keysOf_foldl_buildStep t _]
      rw [show namedKeys (a :: t) = nameKey a :: namedKeys t by
        simp [namedKeys, List.filterMap_cons, h]]
      rw [List.foldl_cons, keysOf_addToGroups]

lemma keysOf_buildGroups (l : List Artifact) :
    keysOf (buildGroups l) = firstSeen (namedKeys l) := by
  unfold buildGroups firstSeen
  rw [keysOf_foldl_buildStep]
  rfl

lemma foldl_insertKey_nodup : ∀ (names acc : List String), acc.Nodup →
    (names.foldl insertKey acc).Nodup
  | [], _, h => h
  | k :: t, acc, h => by
    rw [List.foldl_cons]
    apply foldl_insertKey_nodup t
    unfold insertKey
    by_cases hm : k ∈ acc
    · rw [if_pos hm]; exact h
    · rw [if_neg hm]
      simp [List.nodup_append, h, hm]

lemma firstSeen_nodup (names : List String) : (firstSeen names).Nodup :=
  foldl_insertKey_nodup names [] List.nodup_nil

lemma keysOf_filter (q : String → Bool) : ∀ g : List Group,
    keysOf (g.filter (fun p => q p.1)) = (keysOf g).filter q
  | [] => rfl
  | p :: rest => by
    show keysOf (List.filter (fun p => q p.1) (p :: rest)) = List.filter q (p.1 :: keysOf rest)
    by_cases h : q p.1
    · simp [List.filter_cons, h, keysOf_cons, keysOf_filter q rest]
    · simp [List.filter_cons, h, keysOf_cons, keysOf_filter q rest]

lemma jsObjectValues_perm (g : List Group) : (jsObjectValues g).Perm g := by
  unfold jsObjectValues
  exact ((List.perm_insertionSort groupIdxLe _).append_right _).trans
    (List.filter_append_perm _ g)

lemma groupAndGetLatest_names (l : List Artifact) :
    (groupAndGetLatestArtifacts l).map nameKey = keysOf (jsObjectValues (buildGroups l)) := by
  unfold groupAndGetLatestArtifacts keysOf
  rw [List.map_map]
  apply List.map_congr_left
  intro p hp
  have hmem : p ∈ buildGroups l := (jsObjectValues_perm (buildGroups l)).mem_iff.mp hp
  obtain ⟨hk, hh, ht⟩ := buildGroups_wf l p hmem
  show nameKey (groupLatest p.2.1 p.2.2) = p.1
  have hname : (groupLatest p.2.1 p.2.2).name = some p.1 := by
    rcases List.mem_cons.mp (groupLatest_mem p.2.1 p.2.2) with he | he
    · rw [he]; exact hh
    · exact ht _ he
  unfold nameKey
  rw [hname]
  rfl

lemma mem_groupAndGetLatest_name {l : List Artifact} {a : Artifact}
    (h : a ∈ groupAndGetLatestArtifacts l) : ∃ s, a.name = some s ∧ s ≠ "" := by
  unfold groupAndGetLatestArtifacts at h
  obtain ⟨p, hp, he⟩ := List.mem_map.mp h
  have hmem : p ∈ buildGroups l := (jsObjectValues_perm (buildGroups l)).mem_iff.mp hp
  obtain ⟨hk, hh, ht⟩ := buildGroups_wf l p hmem
  refine ⟨p.1, ?_, hk⟩
  rcases List.mem_cons.mp (groupLatest_mem p.2.1 p.2.2) with hg | hg
  · rw [← he, hg]; exact hh
  · rw [← he]; exact ht _ hg

lemma groupAndGetLatest_singleton (x : Artifact) :
    groupAndGetLatestArtifacts [x] = if nameKey x = "" then [] else [x] := by
  by_cases h : nameKey x = ""
  · rw [if_pos h]
    unfold groupAndGetLatestArtifacts buildGroups
    rw [List.foldl_cons, List.foldl_nil,
      show buildStep [] x = [] by simp [buildStep, h]]
    rfl
  · rw [if_neg h]
    unfold groupAndGetLatestArtifacts buildGroups
    rw [List.foldl_cons, List.foldl_nil,
      show buildStep [] x = [(nameKey x, x, [])] by simp [buildStep, h, addToGroups]]
    by_cases hidx : isArrayIndexKey (nameKey x)
    · simp [jsObjectValues, List.filter_cons, hidx, List.insertionSort, List.orderedInsert,
        groupLatest, reduceLatest]
    · simp [jsObjectValues, List.filter_cons, hidx, groupLatest, reduceLatest]

/-! ### Claim C3 -/

/-- C3 counterexample: (i) an artifact whose name is the empty string is a
distinct name present in the input, yet the per-name pass silently drops
it — output size 0, distinct-name count 1; (ii) with names `"b"` then
`"1"`, `Object.values` enumerates the array-index key `"1"` first, so the
output is *not* in first-seen group order. -/
theorem passB_not_per_distinct_name :
    groupAndGetLatestArtifacts [exampleNoName] = [] ∧
    (firstSeen (([exampleNoName] : List Artifact).map nameKey)).length = 1 ∧
    groupAndGetLatestArtifacts [exampleNameB, exampleName1] = [exampleName1, exampleNameB] ∧
    ([exampleName1, exampleNameB] : List Artifact) ≠ [exampleNameB, exampleName1] := by
  decide

/-- C3 amended: the per-name pass yields exactly one artifact per distinct
*non-empty* name of its input (missing/empty names are dropped), and its
output size equals the number of distinct non-empty names; the group order
is: groups whose name is an array-index string first, in ascending numeric
order, then the remaining groups in first-seen order. -/
theorem passB_per_nonempty_name (l : List Artifact) :
    (groupAndGetLatestArtifacts l).length = (firstSeen (namedKeys l)).length ∧
    ((groupAndGetLatestArtifacts l).map nameKey).Perm (firstSeen (namedKeys l)) ∧
    (firstSeen (namedKeys l)).Nodup ∧
    ∃ A, (groupAndGetLatestArtifacts l).map nameKey =
        A ++ (firstSeen (namedKeys l)).filter (fun k => !isArrayIndexKey k) ∧
      A.Perm ((firstSeen (namedKeys l)).filter (fun k => isArrayIndexKey k)) ∧
      A.Pairwise (fun a b => keyNum a ≤ keyNum b) := by
  have hkeys : keysOf (buildGroups l) = firstSeen (namedKeys l) := keysOf_buildGroups l
  have hnames := groupAndGetLatest_names l
  have hperm1 : (keysOf (jsObjectValues (buildGroups l))).Perm (keysOf (buildGroups l)) :=
    (jsObjectValues_perm (buildGroups l)).map _
  have hsplit : keysOf (jsObjectValues (buildGroups l)) =
      keysOf (List.insertionSort groupIdxLe
          ((buildGroups l).filter (fun p => isArrayIndexKey p.1)))
        ++ keysOf ((buildGroups l).filter (fun p => !isArrayIndexKey p.1)) := by
    unfold jsObjectValues keysOf
    rw [List.map_append]
  refine ⟨?_, ?_, hkeys ▸ firstSeen_nodup (namedKeys l), ?_⟩
  · rw [← List.length_map (groupAndGetLatestArtifacts l) nameKey, hnames,
      hperm1.length_eq, hkeys]
  · rw [hnames, ← hkeys]
    exact hperm1
  · refine ⟨keysOf (List.insertionSort groupIdxLe
        ((buildGroups l).filter (fun p => isArrayIndexKey p.1))), ?_, ?_, ?_⟩
    · rw [hnames, hsplit, keysOf_filter (fun k => !isArrayIndexKey k), hkeys]
    · have hp : (keysOf (List.insertionSort groupIdxLe
          ((buildGroups l).filter (fun p => isArrayIndexKey p.1)))).Perm
            (keysOf ((buildGroups l).filter (fun p => isArrayIndexKey p.1))) :=
        (List.perm_insertionSort groupIdxLe _).map _
      rw [← hkeys, ← keysOf_filter (fun k => isArrayIndexKey k)]
      exact hp
    · have hs := List.sorted_insertionSort groupIdxLe
        ((buildGroups l).filter (fun p => isArrayIndexKey p.1))
      exact List.Pairwise.map (fun p : Group => p.1) (fun a b hab => hab) hs

/-- Witness for C3 (amended): the output size equals the distinct
non-empty-name count on a concrete mixed input. -/
theorem passB_per_nonempty_name_witness :
    (groupAndGetLatestArtifacts [exampleNameB, exampleName1, exampleNoName]).length =
      (firstSeen (namedKeys [exampleNameB, exampleName1, exampleNoName])).length :=
  (passB_per_nonempty_name [exampleNameB, exampleName1, exampleNoName]).1

/-! ### Claim C4 -/

/-- C4 counterexample: with the latest-only flag set and a non-empty
filtered list whose single artifact has an empty name, the latest-only
pass chooses it but the per-name pass drops it again, so the final output
has size 0, not 1, refuting the claim as stated. -/
theorem latest_only_size_zero :
    ([exampleNoName] : List Artifact) ≠ [] ∧
    (selector true [exampleNoName]).length = 0 := by decide

/-- C4 amended: with the latest-only flag set and a non-empty filtered
list, the final output has size at most 1, and size exactly 1 precisely
when the artifact chosen by the latest-only pass has a present, non-empty
name. -/
theorem latest_only_size_le_one (a : Artifact) (t : List Artifact) :
    (selector true (a :: t)).length ≤ 1 ∧
    ((selector true (a :: t)).length = 1 ↔ nameKey (groupLatest a t) ≠ "") := by
  have hsel : selector true (a :: t) = groupAndGetLatestArtifacts [groupLatest a t] := by
    unfold selector
    rfl
  rw [hsel, groupAndGetLatest_singleton]
  by_cases h : nameKey (groupLatest a t) = ""
  · rw [if_pos h]
    simp [h]
  · rw [if_neg h]
    simp [h]

/-- Witness for C4 (amended) at a concrete two-artifact list. -/
theorem latest_only_size_le_one_witness :
    (selector true [exampleA, exampleB]).length ≤ 1 ∧
    ((selector true [exampleA, exampleB]).length = 1 ↔
      nameKey (groupLatest exampleA [exampleB]) ≠ "") :=
  latest_only_size_le_one exampleA [exampleB]

/-! ### Claim C10 -/

/-- C10: every artifact in the final selection set has a present,
non-empty name — the per-name pass drops every falsy-named artifact, even
one already chosen by the latest-only pass — so the `?? "artifact"`
fallback in the destination-path derivation never fires for a selected
artifact. -/
theorem selection_names_nonempty (latest : Bool) (l : List Artifact) (a : Artifact)
    (h : a ∈ selector latest l) : ∃ s, a.name = some s ∧ s ≠ "" := by
  unfold selector at h
  by_cases he : (selectorPassA latest l).isEmpty
  · rw [if_pos he, List.isEmpty_iff.mp he] at h
    simp at h
  · rw [if_neg he] at h
    exact mem_groupAndGetLatest_name h

/-- Witness for C10 at a concrete selection. -/
theorem selection_names_nonempty_witness :
    ∃ s, exampleA.name = some s ∧ s ≠ "" :=
  selection_names_nonempty false [exampleA] exampleA (by decide)

end DownloadArtifact
